import Mathlib

/-!
A verification development for the mbuild HOOMD bridge
(`mbuild/formats/hoomd_simulation.py` and `mbuild/formats/hoomdxml.py`).

The Python source is shallowly embedded: scalar float arithmetic is
modelled over an arbitrary field `K` (instantiated at `ℚ` for concrete
evaluations and at `ℝ` where irrational constants such as `sqrt` or `pi`
are compared), Python dicts become insertion-ordered association lists,
and the calls made against the external HOOMD configuration API are
recorded as an explicit trace of `EngineCall` values.  Python exceptions
are modelled by an `Option PyErr` carried next to the call trace.
-/

namespace Mbuild

/-! ## Lexicographic Boolean comparisons

Python compares strings by code points and lists element by element with
the first difference deciding and a strict prefix ranking smaller.  Both
are instances of one lexicographic scheme, defined here over an
arbitrary element comparison. -/

/-- Lexicographic strict comparison of lists from a strict comparison of
elements, with Python list-comparison semantics. -/
def lexLtB {α : Type} [DecidableEq α] (ltb : α → α → Bool) : List α → List α → Bool
  | _, [] => false
  | [], _ :: _ => true
  | a :: as, b :: bs => ltb a b || (decide (a = b) && lexLtB ltb as bs)

theorem lexLtB_irrefl {α : Type} [DecidableEq α] (ltb : α → α → Bool)
    (hirr : ∀ a, ltb a a = false) (l : List α) : lexLtB ltb l l = false := by
  induction l with
  | nil => rfl
  | cons a as ih => simp [lexLtB, hirr, ih]

theorem lexLtB_asymm {α : Type} [DecidableEq α] (ltb : α → α → Bool)
    (hirr : ∀ a, ltb a a = false)
    (hasy : ∀ a b, ltb a b = true → ltb b a = false)
    {l m : List α} (h : lexLtB ltb l m = true) : lexLtB ltb m l = false := by
  induction l generalizing m with
  | nil =>
    cases m with
    | nil => simp [lexLtB] at h
    | cons b bs => simp [lexLtB]
  | cons a as ih =>
    cases m with
    | nil => simp [lexLtB] at h
    | cons b bs =>
      simp only [lexLtB, Bool.or_eq_true, Bool.and_eq_true, decide_eq_true_eq] at h ⊢
      rcases h with h | ⟨rfl, h⟩
      · have hba := hasy _ _ h
        have hne : b ≠ a := by
          intro e
          subst e
          rw [hirr] at h
          exact Bool.false_ne_true h
        simp [hba, hne]
      · simp [hirr, ih h]

theorem lexLtB_antisymm {α : Type} [DecidableEq α] (ltb : α → α → Bool)
    (hanti : ∀ a b, ltb a b = false → ltb b a = false → a = b)
    {l m : List α} (h1 : lexLtB ltb l m = false) (h2 : lexLtB ltb m l = false) : l = m := by
  induction l generalizing m with
  | nil =>
    cases m with
    | nil => rfl
    | cons b bs => simp [lexLtB] at h1
  | cons a as ih =>
    cases m with
    | nil => simp [lexLtB] at h2
    | cons b bs =>
      simp only [lexLtB, Bool.or_eq_false_iff, Bool.and_eq_false_iff,
        decide_eq_false_iff_not] at h1 h2
      obtain ⟨hab, h1r⟩ := h1
      obtain ⟨hba, h2r⟩ := h2
      have heq : a = b := hanti _ _ hab hba
      subst heq
      rcases h1r with h1r | h1r
      · exact absurd rfl h1r
      · rcases h2r with h2r | h2r
        · exact absurd rfl h2r
        · exact congrArg (a :: ·) (ih h1r h2r)

theorem lexLtB_trans {α : Type} [DecidableEq α] (ltb : α → α → Bool)
    (htr : ∀ a b c, ltb a b = true → ltb b c = true → ltb a c = true)
    {l m n : List α} (h1 : lexLtB ltb l m = true) (h2 : lexLtB ltb m n = true) :
    lexLtB ltb l n = true := by
  induction l generalizing m n with
  | nil =>
    cases n with
    | nil =>
      cases m with
      | nil => exact h1
      | cons b bs => simp [lexLtB] at h2
    | cons c cs => simp [lexLtB]
  | cons a as ih =>
    cases m with
    | nil => simp [lexLtB] at h1
    | cons b bs =>
      cases n with
      | nil => simp [lexLtB] at h2
      | cons c cs =>
        simp only [lexLtB, Bool.or_eq_true, Bool.and_eq_true, decide_eq_true_eq] at h1 h2 ⊢
        rcases h1 with h1 | ⟨rfl, h1⟩
        · rcases h2 with h2 | ⟨rfl, h2⟩
          · exact Or.inl (htr _ _ _ h1 h2)
          · exact Or.inl h1
        · rcases h2 with h2 | ⟨rfl, h2⟩
          · exact Or.inl h2
          · exact Or.inr ⟨rfl, ih h1 h2⟩

/-- Strict comparison of characters by code point, as Python compares
the characters of a string. -/
def charLtB (a b : Char) : Bool := decide (a < b)

theorem charLtB_irrefl (a : Char) : charLtB a a = false := by
  simp [charLtB]

theorem charLtB_asymm (a b : Char) (h : charLtB a b = true) : charLtB b a = false := by
  simp only [charLtB, decide_eq_true_eq] at h
  simp [charLtB, lt_asymm h]

theorem charLtB_antisymm (a b : Char) (h1 : charLtB a b = false)
    (h2 : charLtB b a = false) : a = b := by
  simp only [charLtB, decide_eq_false_iff_not] at h1 h2
  exact le_antisymm (not_lt.mp h2) (not_lt.mp h1)

theorem charLtB_trans (a b c : Char) (h1 : charLtB a b = true)
    (h2 : charLtB b c = true) : charLtB a c = true := by
  simp only [charLtB, decide_eq_true_eq] at h1 h2 ⊢
  exact lt_trans h1 h2

/-- Strict comparison of strings by code points, the semantics of the
Python string comparison used by plain `sorted`. -/
def strLtB (s t : String) : Bool := lexLtB charLtB s.data t.data

theorem strLtB_irrefl (s : String) : strLtB s s = false :=
  lexLtB_irrefl charLtB charLtB_irrefl s.data

theorem strLtB_asymm {s t : String} (h : strLtB s t = true) : strLtB t s = false :=
  lexLtB_asymm charLtB charLtB_irrefl charLtB_asymm h

theorem strLtB_antisymm {s t : String} (h1 : strLtB s t = false)
    (h2 : strLtB t s = false) : s = t := by
  cases s with
  | mk sd =>
    cases t with
    | mk td => exact congrArg String.mk (lexLtB_antisymm charLtB charLtB_antisymm h1 h2)

theorem strLtB_trans {s t u : String} (h1 : strLtB s t = true)
    (h2 : strLtB t u = true) : strLtB s u = true :=
  lexLtB_trans charLtB charLtB_trans h1 h2

/-! ## Natural sort keys

The file `mbuild/formats/hoomd_simulation.py` imports `natural_sort`
from `mbuild.utils.sorting`, a module that is not among the modelled
source files of this repository.  It is used purely as a `key=` function
for two-element `sorted` calls. -/

/-- A token of a natural-sort key: a maximal digit run (converted to a
number) or a maximal non-digit run (lower-cased). -/
inductive NSTok where
  | num (n : Nat)
  | str (s : String)
  deriving DecidableEq, Repr

/-- Lower-case a string character by character (model of `str.lower` for
the ASCII type names used here). -/
def pyLower (s : String) : String := ⟨s.data.map Char.toLower⟩

/-- Value of a digit run, as `int()` would read it. -/
def natOfDigits (cs : List Char) : Nat :=
  cs.foldl (fun n c => 10 * n + (c.toNat - 48)) 0

/-- Group one more character into a reversed run list. -/
def pushRun (d : Bool) (c : Char) : List (Bool × List Char) → List (Bool × List Char)
  | [] => [(d, [c])]
  | (b, cs) :: rest => if b = d then (b, cs ++ [c]) :: rest else (d, [c]) :: (b, cs) :: rest

/-- Maximal digit and non-digit runs of a character list, in order.  The
Boolean marks a digit run. -/
def charRuns (cs : List Char) : List (Bool × List Char) :=
  (cs.foldl (fun acc c => pushRun c.isDigit c acc) []).reverse

/-- Pad a run list the way `re.split` with a capturing digit group
reports it: the result always begins and ends with a (possibly empty)
non-digit chunk. -/
def padRuns (rs : List (Bool × List Char)) : List (Bool × List Char) :=
  let rs1 := match rs.head? with
    | some (true, _) => (false, ([] : List Char)) :: rs
    | some (false, _) => rs
    | none => [(false, [])]
  match rs1.getLast? with
  | some (true, _) => rs1 ++ [(false, [])]
  | _ => rs1

/-- Token of one run. -/
def runTok : Bool × List Char → NSTok
  | (true, cs) => .num (natOfDigits cs)
  | (false, cs) => .str (pyLower ⟨cs⟩)

/-- Modelled from the spec: the helper `natural_sort` of
`mbuild.utils.sorting` is imported by `hoomd_simulation.py` but its
module is not among the source files of this repository; the spec only
speaks of canonicalized type signatures.  The model follows the library
behaviour: split the string into digit runs (read as integers) and
non-digit runs (lower-cased), the comparison key produced by `re.split`
over a capturing digit group. -/
def natural_sort (s : String) : List NSTok :=
  (padRuns (charRuns s.data)).map runTok

/-- Strict comparison of two key tokens, as Python compares list
elements (integers with integers, strings with strings; the mixed case
never arises between two `natural_sort` keys at equal positions and is
totalised arbitrarily). -/
def nsTokLtB : NSTok → NSTok → Bool
  | .num m, .num n => decide (m < n)
  | .str s, .str t => strLtB s t
  | .num _, .str _ => true
  | .str _, .num _ => false

theorem nsTokLtB_irrefl (a : NSTok) : nsTokLtB a a = false := by
  cases a with
  | num n => simp [nsTokLtB]
  | str s => exact strLtB_irrefl s

theorem nsTokLtB_asymm (a b : NSTok) (h : nsTokLtB a b = true) : nsTokLtB b a = false := by
  cases a with
  | num m =>
    cases b with
    | num n =>
      simp only [nsTokLtB, decide_eq_true_eq] at h
      simp only [nsTokLtB, decide_eq_false_iff_not]
      omega
    | str s => rfl
  | str s =>
    cases b with
    | num n => exact Bool.noConfusion h
    | str t => exact strLtB_asymm h

theorem nsTokLtB_antisymm (a b : NSTok) (h1 : nsTokLtB a b = false)
    (h2 : nsTokLtB b a = false) : a = b := by
  cases a with
  | num m =>
    cases b with
    | num n =>
      simp only [nsTokLtB, decide_eq_false_iff_not] at h1 h2
      have hmn : m = n := by omega
      rw [hmn]
    | str s => exact Bool.noConfusion h1
  | str s =>
    cases b with
    | num n => exact Bool.noConfusion h2
    | str t => exact congrArg NSTok.str (strLtB_antisymm h1 h2)

/-- Strict comparison of natural-sort keys: Python list comparison. -/
def nsLtB (k l : List NSTok) : Bool := lexLtB nsTokLtB k l

theorem nsLtB_irrefl (l : List NSTok) : nsLtB l l = false :=
  lexLtB_irrefl nsTokLtB nsTokLtB_irrefl l

theorem nsLtB_asymm {k l : List NSTok} (h : nsLtB k l = true) : nsLtB l k = false :=
  lexLtB_asymm nsTokLtB nsTokLtB_irrefl nsTokLtB_asymm h

theorem nsLtB_antisymm {k l : List NSTok} (h1 : nsLtB k l = false)
    (h2 : nsLtB l k = false) : k = l :=
  lexLtB_antisymm nsTokLtB nsTokLtB_antisymm h1 h2

/-! ## Python dictionaries as insertion-ordered association lists -/

/-- First-match lookup in an association list, the semantics of a Python
dict access (dicts hold at most one entry per key). -/
def alookup {β : Type} : List (String × β) → String → Option β
  | [], _ => none
  | p :: rest, k => if p.1 = k then some p.2 else alookup rest k

/-- Left-biased choice, for stating lookup lemmas. -/
def oalt {β : Type} (a b : Option β) : Option β :=
  match a with
  | some v => some v
  | none => b

@[simp] theorem oalt_some {β : Type} (v : β) (b : Option β) : oalt (some v) b = some v := rfl

@[simp] theorem oalt_none {β : Type} (b : Option β) : oalt none b = b := rfl

theorem oalt_none_right {β : Type} (a : Option β) : oalt a none = a := by
  cases a <;> rfl

theorem oalt_assoc {β : Type} (a b c : Option β) :
    oalt (oalt a b) c = oalt a (oalt b c) := by
  cases a <;> rfl

/-- The dict-building idiom `if key not in d: d[key] = value` appends an
entry exactly when the key is absent. -/
def updIfAbsent {β : Type} (d : List (String × β)) (k : String) (v : β) : List (String × β) :=
  if (alookup d k).isSome then d else d ++ [(k, v)]

/-- The deduplication loop of the initialisation helpers: fold over the
entities, keep those passing the guard, and record the first value seen
for each signature. -/
def dedupFirstWhen {α β : Type} (keep : α → Bool) (sig : α → String) (val : α → β)
    (xs : List α) : List (String × β) :=
  xs.foldl (fun d x => if keep x then updIfAbsent d (sig x) (val x) else d) []

/-- Unguarded deduplication (every entity kept). -/
def dedupFirst {α β : Type} (sig : α → String) (val : α → β) (xs : List α) :
    List (String × β) :=
  dedupFirstWhen (fun _ => true) sig val xs

/-- Keys of an association list in insertion order. -/
def keysOf {β : Type} (d : List (String × β)) : List String := d.map (·.1)

theorem alookup_append {β : Type} (d1 d2 : List (String × β)) (k : String) :
    alookup (d1 ++ d2) k = oalt (alookup d1 k) (alookup d2 k) := by
  induction d1 with
  | nil => rfl
  | cons p rest ih =>
    by_cases h : p.1 = k
    · simp [alookup, h, oalt]
    · simp [alookup, h, ih]

theorem alookup_eq_none_iff {β : Type} (d : List (String × β)) (k : String) :
    alookup d k = none ↔ k ∉ keysOf d := by
  induction d with
  | nil => simp [alookup, keysOf]
  | cons p rest ih =>
    simp only [keysOf, List.map_cons, List.mem_cons]
    by_cases h : p.1 = k
    · subst h
      simp [alookup]
    · rw [show alookup (p :: rest) k = alookup rest k by simp [alookup, h]]
      rw [ih]
      simp only [keysOf]
      constructor
      · intro hn hor
        rcases hor with he | hm
        · exact h he.symm
        · exact hn hm
      · intro hn hm
        exact hn (Or.inr hm)

theorem alookup_isSome_iff {β : Type} (d : List (String × β)) (k : String) :
    (alookup d k).isSome = true ↔ k ∈ keysOf d := by
  rw [Option.isSome_iff_ne_none]
  constructor
  · intro h
    by_contra hmem
    exact h ((alookup_eq_none_iff d k).mpr hmem)
  · intro h hnone
    exact ((alookup_eq_none_iff d k).mp hnone) h

theorem alookup_updIfAbsent {β : Type} (d : List (String × β)) (k1 : String) (v : β)
    (k : String) :
    alookup (updIfAbsent d k1 v) k
      = oalt (alookup d k) (if k1 = k then some v else none) := by
  unfold updIfAbsent
  by_cases h : (alookup d k1).isSome = true
  · rw [if_pos h]
    by_cases hk : k1 = k
    · subst hk
      obtain ⟨v1, hv1⟩ := Option.isSome_iff_exists.mp h
      simp [hv1, oalt]
    · simp only [if_neg hk]
      exact (oalt_none_right _).symm
  · rw [if_neg h, alookup_append]
    have : alookup [(k1, v)] k = if k1 = k then some v else none := rfl
    rw [this]

theorem alookup_dedup_aux {α β : Type} (keep : α → Bool) (sig : α → String)
    (val : α → β) (xs : List α) (d : List (String × β)) (k : String) :
    alookup (xs.foldl (fun d x => if keep x then updIfAbsent d (sig x) (val x) else d) d) k
      = oalt (alookup d k)
          (((xs.filter keep).find? (fun x => decide (sig x = k))).map val) := by
  induction xs generalizing d with
  | nil => simp [oalt_none_right]
  | cons x xs ih =>
    simp only [List.foldl_cons]
    by_cases hkeep : keep x = true
    · rw [if_pos hkeep, ih, alookup_updIfAbsent]
      by_cases hsig : sig x = k
      · simp only [List.filter_cons, hkeep, if_pos trivial]
        rw [List.find?_cons_of_pos _ (by simpa using hsig), oalt_assoc]
        have : oalt (if sig x = k then some (val x) else none)
            (((xs.filter keep).find? (fun x => decide (sig x = k))).map val)
            = some (val x) := by
          rw [if_pos hsig]
          rfl
        rw [this]
        simp [hsig]
      · simp only [List.filter_cons, hkeep, if_pos trivial]
        rw [List.find?_cons_of_neg _ (by simpa using hsig), if_neg hsig]
        rw [oalt_assoc]
        rfl
    · have hkeep2 : keep x = false := Bool.eq_false_iff.mpr hkeep
      rw [if_neg (by simp [hkeep2]), ih]
      simp [List.filter_cons, hkeep2]

/-- The central deduplication property: lookup in the dict built by the
first-wins loop returns the value of the first kept entity bearing the
signature. -/
theorem alookup_dedupFirstWhen {α β : Type} (keep : α → Bool) (sig : α → String)
    (val : α → β) (xs : List α) (k : String) :
    alookup (dedupFirstWhen keep sig val xs) k
      = ((xs.filter keep).find? (fun x => decide (sig x = k))).map val := by
  unfold dedupFirstWhen
  rw [alookup_dedup_aux]
  rfl

theorem keysOf_append {β : Type} (d1 d2 : List (String × β)) :
    keysOf (d1 ++ d2) = keysOf d1 ++ keysOf d2 := by
  simp [keysOf]

theorem keysOf_updIfAbsent_nodup {β : Type} (d : List (String × β)) (k : String) (v : β)
    (h : (keysOf d).Nodup) : (keysOf (updIfAbsent d k v)).Nodup := by
  unfold updIfAbsent
  by_cases hs : (alookup d k).isSome = true
  · rw [if_pos hs]
    exact h
  · rw [if_neg hs, keysOf_append]
    have hniff : k ∉ keysOf d := by
      intro hmem
      exact hs ((alookup_isSome_iff d k).mpr hmem)
    simp only [keysOf, List.map_cons, List.map_nil]
    rw [List.nodup_append]
    refine ⟨h, List.nodup_singleton k, ?_⟩
    intro a ha hb
    simp only [List.mem_singleton] at hb
    subst hb
    exact hniff ha

theorem keysOf_dedup_aux {α β : Type} (keep : α → Bool) (sig : α → String)
    (val : α → β) (xs : List α) (d : List (String × β)) (h : (keysOf d).Nodup) :
    (keysOf (xs.foldl (fun d x => if keep x then updIfAbsent d (sig x) (val x) else d) d)).Nodup := by
  induction xs generalizing d with
  | nil => exact h
  | cons x xs ih =>
    simp only [List.foldl_cons]
    by_cases hkeep : keep x = true
    · rw [if_pos hkeep]
      exact ih _ (keysOf_updIfAbsent_nodup _ _ _ h)
    · rw [if_neg (by simp [Bool.eq_false_iff.mpr hkeep])]
      exact ih _ h

/-- The dict built by the deduplication loop has pairwise distinct keys:
a duplicate signature never produces a second entry. -/
theorem keysOf_dedupFirstWhen_nodup {α β : Type} (keep : α → Bool) (sig : α → String)
    (val : α → β) (xs : List α) : (keysOf (dedupFirstWhen keep sig val xs)).Nodup :=
  keysOf_dedup_aux keep sig val xs [] List.nodup_nil

/-! ## Small sorts

`hoomd_simulation.py` sorts two-element lists with `key=natural_sort`
(bond, angle and dihedral canonicalisation), sorts the atom-type names
with plain `sorted` (LJ cross loop), and joins with `itertools.
combinations_with_replacement` over the sorted names. -/

/-- Stable two-element `sorted` with `key=natural_sort`: the pair is
swapped exactly when the key of the second element is strictly below the
key of the first. -/
def pySortPair (t1 t2 : String) : String × String :=
  if nsLtB (natural_sort t2) (natural_sort t1) then (t2, t1) else (t1, t2)

/-- List form of `sorted([t2, t3], key=natural_sort)`, compared against
the original list in the dihedral canonicalisation. -/
def pySorted2 (t1 t2 : String) : List String :=
  if nsLtB (natural_sort t2) (natural_sort t1) then [t2, t1] else [t1, t2]

/-- Swapping the arguments leaves the sorted pair unchanged whenever the
two natural-sort keys differ or the strings are equal. -/
theorem pySortPair_swap {t1 t2 : String}
    (h : t1 = t2 ∨ natural_sort t1 ≠ natural_sort t2) :
    pySortPair t1 t2 = pySortPair t2 t1 := by
  rcases h with rfl | hne
  · rfl
  · unfold pySortPair
    by_cases h21 : nsLtB (natural_sort t2) (natural_sort t1) = true
    · rw [if_pos h21, if_neg (by rw [nsLtB_asymm h21]; exact Bool.false_ne_true)]
    · have h21f : nsLtB (natural_sort t2) (natural_sort t1) = false :=
        Bool.eq_false_iff.mpr h21
      by_cases h12 : nsLtB (natural_sort t1) (natural_sort t2) = true
      · rw [if_neg h21, if_pos h12]
      · have h12f : nsLtB (natural_sort t1) (natural_sort t2) = false :=
          Bool.eq_false_iff.mpr h12

        exact absurd (nsLtB_antisymm h12f h21f) hne

/-- Insert a string into an ascending list; `foldr` over this models a
stable Python `sorted` on distinct strings. -/
def insertStr (x : String) : List String → List String
  | [] => [x]
  | y :: ys => if strLtB y x then y :: insertStr x ys else x :: y :: ys

/-- Model of plain `sorted` over code-point-compared strings. -/
def pySortedStrs (l : List String) : List String := l.foldr insertStr []

/-- Not-above relation on strings: the pairwise order of a sorted list. -/
def strLeP (a b : String) : Prop := strLtB b a = false

theorem strLeP_trans {x y z : String} (h1 : strLeP x y) (h2 : strLeP y z) : strLeP x z := by
  unfold strLeP at h1 h2 ⊢
  by_cases hzx : strLtB z x = true
  · exfalso
    by_cases hyz : strLtB y z = true
    · have h := strLtB_trans hyz hzx
      rw [h1] at h
      exact Bool.false_ne_true h
    · have hyzf : strLtB y z = false := Bool.eq_false_iff.mpr hyz
      have hzy : z = y := strLtB_antisymm h2 hyzf
      subst hzy
      rw [h1] at hzx
      exact Bool.false_ne_true hzx
  · exact Bool.eq_false_iff.mpr hzx

theorem insertStr_perm (x : String) (l : List String) :
    List.Perm (insertStr x l) (x :: l) := by
  induction l with
  | nil => exact List.Perm.refl _
  | cons y ys ih =>
    unfold insertStr
    by_cases h : strLtB y x = true
    · rw [if_pos h]
      exact (List.Perm.cons y ih).trans (List.Perm.swap x y ys)
    · rw [if_neg h]

theorem mem_insertStr {x z : String} {l : List String} (h : z ∈ insertStr x l) :
    z = x ∨ z ∈ l := by
  have := (insertStr_perm x l).mem_iff.mp h
  simpa using this

theorem insertStr_pairwise (x : String) {l : List String}
    (h : l.Pairwise strLeP) : (insertStr x l).Pairwise strLeP := by
  induction l with
  | nil => exact List.pairwise_singleton _ _
  | cons y ys ih =>
    rw [List.pairwise_cons] at h
    obtain ⟨hy, hys⟩ := h
    unfold insertStr
    by_cases hcmp : strLtB y x = true
    · rw [if_pos hcmp]
      rw [List.pairwise_cons]
      refine ⟨?_, ih hys⟩
      intro z hz
      rcases mem_insertStr hz with rfl | hz2
      · exact strLtB_asymm hcmp
      · exact hy z hz2
    · rw [if_neg hcmp]
      have hxy : strLeP x y := Bool.eq_false_iff.mpr hcmp
      rw [List.pairwise_cons]
      refine ⟨?_, List.pairwise_cons.mpr ⟨hy, hys⟩⟩
      intro z hz
      rcases List.mem_cons.mp hz with rfl | hz2
      · exact hxy
      · exact strLeP_trans hxy (hy z hz2)

theorem pySortedStrs_perm (l : List String) : List.Perm (pySortedStrs l) l := by
  induction l with
  | nil => exact List.Perm.refl _
  | cons x xs ih =>
    unfold pySortedStrs at ih ⊢
    exact (insertStr_perm x (List.foldr insertStr [] xs)).trans (List.Perm.cons x ih)

theorem pySortedStrs_pairwise (l : List String) : (pySortedStrs l).Pairwise strLeP := by
  induction l with
  | nil => exact List.Pairwise.nil
  | cons x xs ih => exact insertStr_pairwise x ih

theorem pySortedStrs_nodup {l : List String} (h : l.Nodup) : (pySortedStrs l).Nodup :=
  (pySortedStrs_perm l).symm.nodup h

/-- `itertools.combinations_with_replacement(l, 2)`: the pairs
`(l[i], l[j])` with `i ≤ j`, in lexicographic index order. -/
def cwr2 : List String → List (String × String)
  | [] => []
  | a :: rest => (a :: rest).map (fun b => (a, b)) ++ cwr2 rest

theorem mem_cwr2 {l : List String} {p : String × String} (h : p ∈ cwr2 l) :
    p.1 ∈ l ∧ p.2 ∈ l := by
  induction l with
  | nil => simp [cwr2] at h
  | cons a rest ih =>
    unfold cwr2 at h
    rcases List.mem_append.mp h with h1 | h2
    · obtain ⟨b, hb, hpb⟩ := List.mem_map.mp h1
      subst hpb
      exact ⟨List.mem_cons_self a rest, hb⟩
    · obtain ⟨h1, h2⟩ := ih h2
      exact ⟨List.mem_cons_of_mem a h1, List.mem_cons_of_mem a h2⟩

theorem cwr2_ascending {l : List String} (hs : l.Pairwise strLeP)
    {p : String × String} (h : p ∈ cwr2 l) : strLeP p.1 p.2 := by
  induction l with
  | nil => simp [cwr2] at h
  | cons a rest ih =>
    rw [List.pairwise_cons] at hs
    obtain ⟨ha, hrest⟩ := hs
    unfold cwr2 at h
    rcases List.mem_append.mp h with h1 | h2
    · obtain ⟨b, hb, hpb⟩ := List.mem_map.mp h1
      subst hpb
      rcases List.mem_cons.mp hb with rfl | hb2
      · exact strLtB_irrefl _
      · exact ha b hb2
    · exact ih hrest h2

theorem cwr2_complete {l : List String} (hs : l.Pairwise strLeP) (hn : l.Nodup)
    {x y : String} (hx : x ∈ l) (hy : y ∈ l) (hxy : strLeP x y) :
    (x, y) ∈ cwr2 l := by
  induction l with
  | nil => simp at hx
  | cons a rest ih =>
    rw [List.pairwise_cons] at hs
    obtain ⟨ha, hrest⟩ := hs
    rw [List.nodup_cons] at hn
    obtain ⟨hna, hnrest⟩ := hn
    unfold cwr2
    rcases List.mem_cons.mp hx with rfl | hx2
    · exact List.mem_append.mpr (Or.inl (List.mem_map.mpr ⟨y, hy, rfl⟩))
    · rcases List.mem_cons.mp hy with rfl | hy2
      · have hax : strLeP y x := ha x hx2
        have : x = y := strLtB_antisymm hax hxy
        subst this
        exact absurd hx2 hna
      · exact List.mem_append.mpr (Or.inr (ih hrest hnrest hx2 hy2))

theorem cwr2_nodup {l : List String} (hn : l.Nodup) : (cwr2 l).Nodup := by
  induction l with
  | nil => exact List.nodup_nil
  | cons a rest ih =>
    rw [List.nodup_cons] at hn
    obtain ⟨hna, hnrest⟩ := hn
    unfold cwr2
    rw [List.nodup_append]
    refine ⟨?_, ih hnrest, ?_⟩
    · refine List.Nodup.map ?_ (List.nodup_cons.mpr ⟨hna, hnrest⟩)
      intro b1 b2 he
      exact congrArg Prod.snd he
    · intro p hp1 hp2
      obtain ⟨b, _, hpb⟩ := List.mem_map.mp hp1
      have h1 : p.1 ∈ rest := (mem_cwr2 hp2).1
      rw [show p.1 = a from hpb ▸ rfl] at h1
      exact hna h1

/-! ## Canonical type-signature keys

Embedded from `hoomd_simulation.py`: the key strings under which the
coefficient tables are filled. -/

/-- Bond signature, lines 191 to 194: sort the two end types with
`key=natural_sort` and join with a dash. -/
def bond_key (t1 t2 : String) : String :=
  let p := pySortPair t1 t2
  String.intercalate "-" [p.1, p.2]

/-- Angle signature, lines 212 to 214: sort the two outer types with
`key=natural_sort`, keep the centre type in the middle and join. -/
def angle_key (t1 t2 t3 : String) : String :=
  let p := pySortPair t1 t3
  String.intercalate "-" [p.1, t2, p.2]

/-- Dihedral signature, lines 232 to 237 (and identically lines 262 to
267 for RB torsions): keep the original orientation when the two middle
types are already in natural-sort order, otherwise join the reversed
tuple. -/
def dihedral_key (t1 t2 t3 t4 : String) : String :=
  if [t2, t3] = pySorted2 t2 t3
  then String.intercalate "-" [t1, t2, t3, t4]
  else String.intercalate "-" [t4, t3, t2, t1]

/-- Signature of a 1-4 adjust, line 169: dash-join of the plainly sorted
pair of type names. -/
def adjust_key (t1 t2 : String) : String :=
  if strLtB t2 t1
  then String.intercalate "-" [t2, t1]
  else String.intercalate "-" [t1, t2]

theorem bond_key_swap {t1 t2 : String}
    (h : t1 = t2 ∨ natural_sort t1 ≠ natural_sort t2) :
    bond_key t1 t2 = bond_key t2 t1 := by
  unfold bond_key
  rw [pySortPair_swap h]

theorem angle_key_swap {t1 t3 : String} (t2 : String)
    (h : t1 = t3 ∨ natural_sort t1 ≠ natural_sort t3) :
    angle_key t1 t2 t3 = angle_key t3 t2 t1 := by
  unfold angle_key
  rw [pySortPair_swap h]

theorem dihedral_key_rev {t1 t2 t3 t4 : String}
    (h : natural_sort t2 ≠ natural_sort t3) :
    dihedral_key t1 t2 t3 t4 = dihedral_key t4 t3 t2 t1 := by
  have hne : t2 ≠ t3 := fun e => h (congrArg natural_sort e)
  unfold dihedral_key pySorted2
  by_cases h32 : nsLtB (natural_sort t3) (natural_sort t2) = true
  · have h23f : nsLtB (natural_sort t2) (natural_sort t3) = false := nsLtB_asymm h32
    rw [if_pos h32]
    rw [if_neg (show ¬[t2, t3] = [t3, t2] by simp [hne])]
    rw [if_neg (show ¬nsLtB (natural_sort t2) (natural_sort t3) = true by
      rw [h23f]; exact Bool.false_ne_true)]
    rw [if_pos rfl]
  · have h32f : nsLtB (natural_sort t3) (natural_sort t2) = false :=
      Bool.eq_false_iff.mpr h32
    by_cases h23 : nsLtB (natural_sort t2) (natural_sort t3) = true
    · rw [if_neg h32]
      rw [if_pos rfl]
      rw [if_pos h23]
      rw [if_neg (show ¬[t3, t2] = [t2, t3] by simp [hne, Ne.symm hne])]
    · exact absurd (nsLtB_antisymm (Bool.eq_false_iff.mpr h23) h32f) h

theorem adjust_key_swap (t1 t2 : String) : adjust_key t1 t2 = adjust_key t2 t1 := by
  unfold adjust_key
  by_cases h21 : strLtB t2 t1 = true
  · rw [if_pos h21, if_neg (by rw [strLtB_asymm h21]; exact Bool.false_ne_true)]
  · have h21f : strLtB t2 t1 = false := Bool.eq_false_iff.mpr h21
    by_cases h12 : strLtB t1 t2 = true
    · rw [if_neg h21, if_pos h12]
    · have h12f : strLtB t1 t2 = false := Bool.eq_false_iff.mpr h12
      rw [strLtB_antisymm h12f h21f]

/-! ## Data model

The ParmEd entities consumed by `hoomd_simulation.py`, restricted to the
attributes that the file reads.  Scalars live in an arbitrary field `K`
standing for Python floats. -/

/-- The ParmEd `AtomType` attributes read by the LJ initialiser:
`sigma`, `epsilon` and the `nbfix` mapping from a partner type name to
the tuple `(rmin, eps, rmin14, eps14)`. -/
structure AtomType (K : Type) where
  sigma : K
  epsilon : K
  nbfix : List (String × (K × K × K × K))
  deriving DecidableEq

/-- An atom: its type name string (`atom.type`) and its parameter object
(`atom.atom_type`). -/
structure Atom (K : Type) where
  type : String
  atom_type : AtomType K
  deriving DecidableEq

/-- A harmonic bond type: force constant `k` and equilibrium length
`req`. -/
structure BondType (K : Type) where
  k : K
  req : K
  deriving DecidableEq

/-- A bond with its two atoms and its type object. -/
structure Bond (K : Type) where
  atom1 : Atom K
  atom2 : Atom K
  type : BondType K
  deriving DecidableEq

/-- A harmonic angle type: force constant `k` and equilibrium angle
`theteq` in degrees. -/
structure AngleType (K : Type) where
  k : K
  theteq : K
  deriving DecidableEq

/-- An angle with its three atoms and its type object. -/
structure Angle (K : Type) where
  atom1 : Atom K
  atom2 : Atom K
  atom3 : Atom K
  type : AngleType K
  deriving DecidableEq

/-- A periodic dihedral type: barrier `phi_k`, periodicity `per` and
phase shift `phase`. -/
structure DihedralType (K : Type) where
  phi_k : K
  per : K
  phase : K
  deriving DecidableEq

/-- A periodic dihedral with its four atoms and its type object. -/
structure Dihedral (K : Type) where
  atom1 : Atom K
  atom2 : Atom K
  atom3 : Atom K
  atom4 : Atom K
  type : DihedralType K
  deriving DecidableEq

/-- A Ryckaert-Bellemans torsion type: the six coefficients. -/
structure RBTorsionType (K : Type) where
  c0 : K
  c1 : K
  c2 : K
  c3 : K
  c4 : K
  c5 : K
  deriving DecidableEq

/-- An RB torsion with its four atoms and its type object. -/
structure RBTorsion (K : Type) where
  atom1 : Atom K
  atom2 : Atom K
  atom3 : Atom K
  atom4 : Atom K
  type : RBTorsionType K
  deriving DecidableEq

/-- A 1-4 adjust type: pre-scaled `sigma` and `epsilon` and the charge
scaling `chgscale`. -/
structure AdjustType (K : Type) where
  sigma : K
  epsilon : K
  chgscale : K
  deriving DecidableEq

/-- A 1-4 adjust pair with its two atoms and its type object. -/
structure Adjust (K : Type) where
  atom1 : Atom K
  atom2 : Atom K
  type : AdjustType K
  deriving DecidableEq

/-- The ParmEd `Structure` attributes read by
`create_hoomd_simulation` and its helpers.  The `*_types` lists are only
tested for truthiness to decide which initialisers run. -/
structure Structure (K : Type) where
  atoms : List (Atom K)
  bonds : List (Bond K)
  angles : List (Angle K)
  dihedrals : List (Dihedral K)
  rb_torsions : List (RBTorsion K)
  adjusts : List (Adjust K)
  bond_types : List (BondType K)
  angle_types : List (AngleType K)
  dihedral_types : List (DihedralType K)
  rb_torsion_types : List (RBTorsionType K)
  deriving DecidableEq

/-- The argument of `create_hoomd_simulation` with the Python type tags
that the `isinstance` validation inspects: whether the object is an
`mb.Compound` and whether it is a `pmd.Structure` (the two classes are
unrelated, but the model keeps both tags independent). -/
structure PyInput (K : Type) where
  isCompound : Bool
  isStructure : Bool
  s : Structure K
  deriving DecidableEq

/-- Irrational floating constants appearing in the translated formulas,
abstracted as parameters of the embedding: `np.pi` and `2 ** (1 / 6)`. -/
structure FloatCtx (K : Type) where
  pi : K
  root6two : K
  deriving DecidableEq

/-- A Python exception, by kind and (for `ValueError`) message. -/
inductive PyErr where
  | valueError (msg : String)
  | attributeError (name : String)
  | nameError (name : String)
  | keyError
  | indexError
  deriving DecidableEq, Repr

/-- One call against the engine configuration API, with the coefficient
values handed over. -/
inductive EngineCall (K : Type) where
  | contextInit
  | readSnapshot
  | resetExclusions (ex : List String)
  | ljPair (a1 a2 : String) (sigma epsilon : K)
  | pppm
  | lj14 (name : String) (sigma epsilon alpha r_cut : K)
  | qq14 (name : String) (alpha r_cut : K)
  | bondHarmonic (name : String) (k r0 : K)
  | angleHarmonic (name : String) (t0 k : K)
  | dihedralPeriodic (name : String) (k : K) (d : Int) (n : K)
  | dihedralOpls (name : String) (k1 k2 k3 k4 : K)
  deriving DecidableEq

/-- Result of running a fragment of the bridge: the engine calls made,
and the exception that aborted it, if any. -/
structure Outcome (K : Type) where
  calls : List (EngineCall K)
  err : Option PyErr
  deriving DecidableEq

/-- Sequencing of two fragments: the second runs only when the first did
not raise, and the calls accumulate. -/
def seqOut {K : Type} (a b : Outcome K) : Outcome K :=
  match a.err with
  | some _ => a
  | none => ⟨a.calls ++ b.calls, b.err⟩

/-- Run fragments in order with exception short-circuiting. -/
def runAll {K : Type} (os : List (Outcome K)) : Outcome K :=
  os.foldl seqOut ⟨[], none⟩

/-! ## Embedding of the force-field translation
(`mbuild/formats/hoomd_simulation.py`) -/

/-- Lines 108 to 111: the unique-atom-type dict of `_init_hoomd_lj`,
keyed by the type name, first atom wins. -/
def atom_type_params {K : Type} (s : Structure K) : List (String × AtomType K) :=
  dedupFirst (fun a => a.type) (fun a => a.atom_type) s.atoms

/-- Lines 114 to 118: the self-interaction loop of `_init_hoomd_lj`,
one `pair_coeff.set(name, name, ...)` per dict entry with
`sigma / ref_distance` and `epsilon / ref_energy`. -/
def lj_self_calls {K : Type} [Field K] (atp : List (String × AtomType K))
    (refD refE : K) : List (EngineCall K) :=
  atp.map (fun p => .ljPair p.1 p.1 (p.2.sigma / refD) (p.2.epsilon / refE))

/-- Lines 128 to 129: the Lorentz cross sigma,
`(sigma1 + sigma2) / (2 * ref_distance)`. -/
def lorentz_sigma {K : Type} [Field K] (t1 t2 : AtomType K) (refD : K) : K :=
  (t1.sigma + t2.sigma) / (2 * refD)

/-- Lines 130 to 132: the cross epsilon as the code computes it,
`(epsilon1 * epsilon2) / ref_energy ** 2` (note: no square root is
taken). -/
def lorentz_epsilon {K : Type} [Field K] (t1 t2 : AtomType K) (refE : K) : K :=
  (t1.epsilon * t2.epsilon) / refE ^ 2

/-- Line 134: the message of the unsupported-mixing-rule `ValueError`. -/
def mixing_msg (mr : String) : String :=
  "Mixing rule " ++ mr ++ " not supported, use lorentz"

/-- Line 121: `sorted(atom_type_params.keys())`. -/
def all_atomtypes {K : Type} (s : Structure K) : List String :=
  pySortedStrs (keysOf (atom_type_params s))

/-- Line 122: `itertools.combinations_with_replacement(all_atomtypes, 2)`. -/
def ljCrossPairs {K : Type} (s : Structure K) : List (String × String) :=
  cwr2 (all_atomtypes s)

/-- Lines 123 to 140: one iteration of the cross-interaction loop of
`_init_hoomd_lj`.  The dict accesses `atom_type_params[a1]` and
`atom_type_params[a2]` are modelled by lookups whose failure would be a
`KeyError` (they never fail, the pairs come from the very same dict);
`nbfix.get(a2, None)` selects between the NBFIX branch and the
mixing-rule branch, and a mixing rule other than `lorentz`
(case-insensitively, line 127) raises the `ValueError` of line 134. -/
def lj_cross_step {K : Type} [Field K] (ctx : FloatCtx K) (mr : String)
    (atp : List (String × AtomType K)) (refD refE : K) (p : String × String) :
    Outcome K :=
  match alookup atp p.1, alookup atp p.2 with
  | some t1, some t2 =>
    match alookup t1.nbfix p.2 with
    | none =>
      if pyLower mr = "lorentz"
      then ⟨[.ljPair p.1 p.2 (lorentz_sigma t1 t2 refD) (lorentz_epsilon t1 t2 refE)], none⟩
      else ⟨[], some (.valueError (mixing_msg mr))⟩
    | some nb =>
      ⟨[.ljPair p.1 p.2 (nb.1 / (refD * ctx.root6two)) (nb.2.1 / refE)], none⟩
  | _, _ => ⟨[], some .keyError⟩

/-- Lines 104 to 142: `_init_hoomd_lj`.  The `hoomd.md.pair.lj(r_cut,
nl)` table construction itself sets no coefficients and is not recorded
in the trace. -/
def init_hoomd_lj {K : Type} [Field K] (ctx : FloatCtx K) (s : Structure K)
    (mr : String) (refD refE : K) : Outcome K :=
  seqOut ⟨lj_self_calls (atom_type_params s) refD refE, none⟩
    (runAll ((ljCrossPairs s).map (lj_cross_step ctx mr (atom_type_params s) refD refE)))

/-- Lines 164 to 171: the unique 1-4 scaling dict of
`_init_hoomd_14_pairs`, keyed by the dash-joined sorted pair of type
names, first adjust wins. -/
def params_14 {K : Type} (s : Structure K) : List (String × AdjustType K) :=
  dedupFirst (fun a => adjust_key a.atom1.type a.atom2.type) (fun a => a.type) s.adjusts

/-- Lines 152 to 184: `_init_hoomd_14_pairs`.  It resets the
neighbour-list exclusions and makes one `lj_14.pair_coeff.set` call
(with `alpha=1`) and one `qq_14.pair_coeff.set` call (with the charge
scaling) per unique 1-4 signature. -/
def init_hoomd_14_pairs {K : Type} [Field K] (s : Structure K)
    (r_cut refD refE : K) : Outcome K :=
  ⟨.resetExclusions ["1-2", "1-3", "1-4"] ::
    ((params_14 s).map (fun p =>
      [EngineCall.lj14 p.1 (p.2.sigma / refD) (p.2.epsilon / refE) 1 r_cut,
       EngineCall.qq14 p.1 p.2.chgscale r_cut])).flatten, none⟩

/-- Line 193: the guard of the bond deduplication loop, both sorted type
names non-empty. -/
def bond_keep {K : Type} (b : Bond K) : Bool :=
  let p := pySortPair b.atom1.type b.atom2.type
  decide (p.1 ≠ "" ∧ p.2 ≠ "")

/-- Lines 189 to 196: the unique-bond-type dict of `_init_hoomd_bonds`,
first bond wins. -/
def bond_type_params {K : Type} (s : Structure K) : List (String × BondType K) :=
  dedupFirstWhen bond_keep (fun b => bond_key b.atom1.type b.atom2.type)
    (fun b => b.type) s.bonds

/-- Lines 186 to 205: `_init_hoomd_bonds`, one `bond_coeff.set` per
unique signature with `k = 2 * k * ref_distance ** 2 / ref_energy` and
`r0 = req / ref_distance`. -/
def init_hoomd_bonds {K : Type} [Field K] (s : Structure K) (refD refE : K) :
    Outcome K :=
  ⟨(bond_type_params s).map (fun p =>
    .bondHarmonic p.1 (2 * p.2.k * refD ^ 2 / refE) (p.2.req / refD)), none⟩

/-- Model of `np.deg2rad` (an external NumPy function): multiplication
by pi over 180. -/
def deg2rad {K : Type} [Field K] (ctx : FloatCtx K) (x : K) : K :=
  x * (ctx.pi / 180)

/-- Lines 210 to 216: the unique-angle-type dict of
`_init_hoomd_angles`, first angle wins. -/
def angle_type_params {K : Type} (s : Structure K) : List (String × AngleType K) :=
  dedupFirst (fun a => angle_key a.atom1.type a.atom2.type a.atom3.type)
    (fun a => a.type) s.angles

/-- Lines 207 to 225: `_init_hoomd_angles`, one `angle_coeff.set` per
unique signature with `t0 = np.deg2rad(theteq)` and
`k = 2 * k / ref_energy`. -/
def init_hoomd_angles {K : Type} [Field K] (ctx : FloatCtx K) (s : Structure K)
    (refE : K) : Outcome K :=
  ⟨(angle_type_params s).map (fun p =>
    .angleHarmonic p.1 (deg2rad ctx p.2.theteq) (2 * p.2.k / refE)), none⟩

/-- Lines 227 to 255: `_init_hoomd_dihedrals`.  Its first statement
(line 231) iterates `structure.structure.dihedrals`, but a ParmEd
`Structure` has no attribute named `structure` (every other helper reads
`structure.<collection>` directly), so the call raises
`AttributeError` before building the dict or setting any coefficient. -/
def init_hoomd_dihedrals {K : Type} (_s : Structure K) : Outcome K :=
  ⟨[], some (.attributeError "structure")⟩

/-- Lines 260 to 269: the unique-RB-torsion-type dict of
`_init_hoomd_rb_torsions`, keyed by the canonicalised dihedral
signature, first torsion wins. -/
def rb_torsion_type_params {K : Type} (s : Structure K) :
    List (String × RBTorsionType K) :=
  dedupFirst (fun d => dihedral_key d.atom1.type d.atom2.type d.atom3.type d.atom4.type)
    (fun d => d.type) s.rb_torsions

/-- Modelled from the spec: `RB_to_OPLS` of `mbuild.utils.conversion` is
imported by `hoomd_simulation.py` but its module is not among the source
files of this repository; the spec describes it only as a fixed
polynomial basis change for torsion coefficients.  The standard
RB-to-OPLS linear map is used; no claim depends on the individual
matrix entries. -/
def RB_to_OPLS {K : Type} [Field K] (c0 c1 c2 c3 c4 c5 : K) : K × K × K × K :=
  (-(3 / 2) * c3 - 2 * c1, c0 + c1 + c3, -(1 / 2) * c3, -(1 / 4) * c4)

/-- Lines 257 to 283: `_init_hoomd_rb_torsions`, one
`dihedral_coeff.set` per unique signature, with each of `c0` to `c5`
divided by `ref_energy` before the basis change. -/
def init_hoomd_rb_torsions {K : Type} [Field K] (s : Structure K) (refE : K) :
    Outcome K :=
  ⟨(rb_torsion_type_params s).map (fun p =>
    let F := RB_to_OPLS (p.2.c0 / refE) (p.2.c1 / refE) (p.2.c2 / refE)
      (p.2.c3 / refE) (p.2.c4 / refE) (p.2.c5 / refE)
    .dihedralOpls p.1 F.1 F.2.1 F.2.2.1 F.2.2.2), none⟩

/-- Lines 58 to 64: the message of the `ValueError` raised for an
`mb.Compound` argument. -/
def compound_msg : String :=
  "You passed mb.Compound to create_hoomd_simulation, " ++
  "there will be no angles, dihedrals, or force field parameters. " ++
  "Please use " ++
  "hoomd_snapshot.to_hoomdsnapshot to create a hoomd.Snapshot, " ++
  "then create your own hoomd context " ++
  "and pass your hoomd.Snapshot " ++
  "to hoomd.init.read_snapshot()"

/-- Lines 66 to 67: the message of the `ValueError` raised for an
argument that is not a `pmd.Structure`. -/
def structure_msg : String :=
  "Please pass a parmed.Structure to create_hoomd_simulation"

/-- Lines 77 to 81: the LJ and Coulomb block of
`create_hoomd_simulation`.  Reading `structure.atoms[0]` on an empty
atom list is an `IndexError`; with a non-empty typed first atom the LJ
initialiser runs with the hard-coded mixing rule `lorentz` of line 79,
followed by the PPPM setup of `_init_hoomd_qq` (whose group and
`set_params` calls configure the external charge solver and are
recorded as a single `pppm` trace event). -/
def lj_qq_step {K : Type} [Field K] (ctx : FloatCtx K) (s : Structure K)
    (refD refE : K) : Outcome K :=
  match s.atoms with
  | [] => ⟨[], some .indexError⟩
  | a :: _ =>
    if a.type = "" then ⟨[], none⟩
    else seqOut (init_hoomd_lj ctx s "lorentz" refD refE) ⟨[.pppm], none⟩

/-- Lines 24 to 102: `create_hoomd_simulation`.  The `isinstance`
validation runs before `hoomd.context.initialize`, the snapshot read and
every coefficient call; the remaining blocks run in source order, each
gated on the truthiness test of the corresponding attribute.  The
parameters `ref_mass` (only forwarded to the external snapshot builder)
and `mixing_rule` (never forwarded: line 79 passes the literal
`lorentz`) do not influence the trace. -/
def create_hoomd_simulation {K : Type} [Field K] (ctx : FloatCtx K)
    (inp : PyInput K) (refD refM refE : K) (mixing_rule : String) (r_cut : K) :
    Outcome K :=
  if inp.isCompound then ⟨[], some (.valueError compound_msg)⟩
  else if inp.isStructure = false then ⟨[], some (.valueError structure_msg)⟩
  else
    let s := inp.s
    let o1 : Outcome K :=
      ⟨[.contextInit, .readSnapshot, .resetExclusions ["1-2", "1-3"]], none⟩
    let o2 := seqOut o1 (lj_qq_step ctx s refD refE)
    let o3 := seqOut o2
      (if s.adjusts.isEmpty then ⟨[], none⟩ else init_hoomd_14_pairs s (6 / 5) refD refE)
    let o4 := seqOut o3
      (if s.bond_types.isEmpty then ⟨[], none⟩ else init_hoomd_bonds s refD refE)
    let o5 := seqOut o4
      (if s.angle_types.isEmpty then ⟨[], none⟩ else init_hoomd_angles ctx s refE)
    let o6 := seqOut o5
      (if s.dihedral_types.isEmpty then ⟨[], none⟩ else init_hoomd_dihedrals s)
    seqOut o6
      (if s.rb_torsion_types.isEmpty then ⟨[], none⟩ else init_hoomd_rb_torsions s refE)

/-! ## State-threaded variant

Each helper of `create_hoomd_simulation` only reads attributes of the
structure; the Python source contains no assignment to, and no mutating
call on, the structure or its entities.  The state-threaded embedding
makes this explicit: every step takes the structure and hands it back. -/

/-- Sequencing with the structure threaded through. -/
def seqOutST {K : Type} (a : Outcome K × Structure K)
    (f : Structure K → Outcome K × Structure K) : Outcome K × Structure K :=
  match a.1.err with
  | some _ => a
  | none =>
    let r := f a.2
    (⟨a.1.calls ++ r.1.calls, r.1.err⟩, r.2)

theorem seqOutST_pure {K : Type} (o : Outcome K) (s : Structure K)
    (g : Structure K → Outcome K) :
    seqOutST (o, s) (fun s => (g s, s)) = (seqOut o (g s), s) := by
  unfold seqOutST seqOut
  cases h : o.err <;> simp

/-- `create_hoomd_simulation` with the structure threaded through every
block, returning the input object as left by the call. -/
def create_hoomd_simulationST {K : Type} [Field K] (ctx : FloatCtx K)
    (inp : PyInput K) (refD refM refE : K) (mixing_rule : String) (r_cut : K) :
    Outcome K × PyInput K :=
  if inp.isCompound then (⟨[], some (.valueError compound_msg)⟩, inp)
  else if inp.isStructure = false then (⟨[], some (.valueError structure_msg)⟩, inp)
  else
    let r1 : Outcome K × Structure K :=
      (⟨[.contextInit, .readSnapshot, .resetExclusions ["1-2", "1-3"]], none⟩, inp.s)
    let r2 := seqOutST r1 (fun s => (lj_qq_step ctx s refD refE, s))
    let r3 := seqOutST r2 (fun s =>
      ((if s.adjusts.isEmpty then ⟨[], none⟩ else init_hoomd_14_pairs s (6 / 5) refD refE), s))
    let r4 := seqOutST r3 (fun s =>
      ((if s.bond_types.isEmpty then ⟨[], none⟩ else init_hoomd_bonds s refD refE), s))
    let r5 := seqOutST r4 (fun s =>
      ((if s.angle_types.isEmpty then ⟨[], none⟩ else init_hoomd_angles ctx s refE), s))
    let r6 := seqOutST r5 (fun s =>
      ((if s.dihedral_types.isEmpty then ⟨[], none⟩ else init_hoomd_dihedrals s), s))
    let r7 := seqOutST r6 (fun s =>
      ((if s.rb_torsion_types.isEmpty then ⟨[], none⟩ else init_hoomd_rb_torsions s refE), s))
    (r7.1, ⟨inp.isCompound, inp.isStructure, r7.2⟩)

/-- The state-threaded run returns the outcome of the plain embedding
and the untouched input. -/
theorem createST_spec {K : Type} [Field K] (ctx : FloatCtx K) (inp : PyInput K)
    (refD refM refE : K) (mixing_rule : String) (r_cut : K) :
    create_hoomd_simulationST ctx inp refD refM refE mixing_rule r_cut
      = (create_hoomd_simulation ctx inp refD refM refE mixing_rule r_cut, inp) := by
  unfold create_hoomd_simulationST create_hoomd_simulation
  by_cases h1 : inp.isCompound
  · rw [if_pos h1, if_pos h1]
  · rw [if_neg h1, if_neg h1]
    by_cases h2 : inp.isStructure = false
    · rw [if_pos h2, if_pos h2]
    · rw [if_neg h2, if_neg h2]
      simp only [seqOutST_pure]

/-! ## Embedding of the legacy XML reader and writer
(`mbuild/formats/hoomdxml.py`, a Python 2 module) -/

/-- The attributes of the `box` node (lines 31 to 37). -/
structure Box (K : Type) where
  lx : K
  ly : K
  lz : K
  xy : K
  xz : K
  yz : K
  deriving DecidableEq

/-- A parsed legacy XML file with the required nodes present: the box
attributes, the `splitlines()` of the `position` node text (each line
already tokenised into its whitespace-separated floats), the
`splitlines()` of the `type` node text, and the names of the optional
per-particle and multi-particle nodes present in the file (assumed
well-formed with at least one data line each; their numeric payload is
not inspected by any claim). -/
structure HoomdXmlConfig (K : Type) where
  box : Box K
  position_lines : List (List K)
  type_lines : List String
  per_particle_present : List String
  multi_present : List String
  deriving DecidableEq

/-- Line 58: the per-particle node names probed by the optional block. -/
def per_particle_nodes : List String :=
  ["image", "velocity", "acceleration", "mass", "diameter", "charge", "body",
   "orientation", "moment_inertia"]

/-- Line 74: the multi-particle node names probed by the optional block. -/
def multi_particle_nodes : List String := ["bond", "angle", "dihedral", "improper"]

/-- Lines 53 to 88: the keys of `optional_data` in insertion order: the
`per_particle` frame when at least one per-particle node is present,
then each present multi-particle node. -/
def optional_keys {K : Type} (cfg : HoomdXmlConfig K) : List String :=
  (if (per_particle_nodes.filter (fun n => decide (n ∈ cfg.per_particle_present))).isEmpty
   then [] else ["per_particle"]) ++
  multi_particle_nodes.filter (fun n => decide (n ∈ cfg.multi_present))

/-- The trajectory assembled by `load_hoomdxml`: coordinate rows, atom
count, the three-by-three unit-cell matrix, and per-atom type names. -/
structure Traj (K : Type) where
  xyz : List (List K)
  n_atoms : Nat
  unitcell : List (List K)
  types : List String
  deriving DecidableEq

/-- Lines 6 to 115: `load_hoomdxml`.  Lines 38 to 40 build the unit
cell; as written, the entry in row two, column three is `xy * lz` (the
parsed `yz` attribute is never used).  Lines 43 to 45 drop the first
`splitlines()` entry and enumerate the rest; when no data line remains,
`n` is unbound and line 45 raises `NameError`.  Line 93 reads
`optional_data` outside the `if optional_nodes:` block of line 53, so a
call with `optional_nodes=False` raises `NameError` there; with
`optional_nodes=True` the function returns the pair of the trajectory
and the optional data (modelled by its key list). -/
def load_hoomdxml {K : Type} [Field K] (cfg : HoomdXmlConfig K)
    (optional_nodes : Bool) : Except PyErr (Traj K × Option (List String)) :=
  let b := cfg.box
  let unitcell : List (List K) :=
    [[b.lx, b.xy * b.ly, b.xz * b.lz],
     [0,    b.ly,        b.xy * b.lz],
     [0,    0,           b.lz]]
  let xyz := cfg.position_lines.drop 1
  if xyz.isEmpty then .error (.nameError "n")
  else
    let n_atoms := xyz.length
    let types := cfg.type_lines.drop 1
    let odata := if optional_nodes then some (optional_keys cfg) else none
    match odata with
    | none => .error (.nameError "optional_data")
    | some keys => .ok (⟨xyz, n_atoms, unitcell, types⟩, some keys)

/-- The argument of `save_hoomdxml`, an opaque trajectory object. -/
structure MdTraj (K : Type) where
  xyz : List (List K)
  types : List String
  deriving DecidableEq

/-- Result of a save: the lines written to the named file, if the file
was opened at all, and the exception, if any. -/
structure SaveOutcome where
  written : Option (List String)
  err : Option PyErr
  deriving DecidableEq

/-- Lines 118 to 151: `save_hoomdxml`.  Its first statement (line 126)
evaluates `component.atoms()`, but no name `component` is bound in the
function (the parameter is `traj`) or in the module, so every call
raises `NameError` before `open(filename, ...)` on line 129 is reached:
no file is created and nothing is written.  (The later lines also read
the unbound names `lx`, `ly`, `lz` and `ATOMS`.) -/
def save_hoomdxml {K : Type} (_traj : MdTraj K) (_filename : String) : SaveOutcome :=
  ⟨none, some (.nameError "component")⟩

/-! ## Workhorse lemmas about the LJ initialiser -/

/-- The cross-loop call for one pair under the `lorentz` rule, as a
total function (the catch-all branch is unreachable: both lookups
succeed for every generated pair). -/
def lorentz_cross_call {K : Type} [Field K] (ctx : FloatCtx K)
    (atp : List (String × AtomType K)) (refD refE : K) (p : String × String) :
    EngineCall K :=
  match alookup atp p.1, alookup atp p.2 with
  | some t1, some t2 =>
    match alookup t1.nbfix p.2 with
    | none => .ljPair p.1 p.2 (lorentz_sigma t1 t2 refD) (lorentz_epsilon t1 t2 refE)
    | some nb => .ljPair p.1 p.2 (nb.1 / (refD * ctx.root6two)) (nb.2.1 / refE)
  | _, _ => .ljPair p.1 p.2 0 0

/-- The full cross-loop call list under the `lorentz` rule. -/
def lorentz_cross_calls {K : Type} [Field K] (ctx : FloatCtx K) (s : Structure K)
    (refD refE : K) : List (EngineCall K) :=
  (ljCrossPairs s).map (lorentz_cross_call ctx (atom_type_params s) refD refE)

theorem mem_ljCrossPairs_isSome {K : Type} (s : Structure K)
    {p : String × String} (hp : p ∈ ljCrossPairs s) :
    (alookup (atom_type_params s) p.1).isSome = true
      ∧ (alookup (atom_type_params s) p.2).isSome = true := by
  have hmem := mem_cwr2 hp
  unfold all_atomtypes at hmem
  have h1 : p.1 ∈ keysOf (atom_type_params s) :=
    (pySortedStrs_perm _).mem_iff.mp hmem.1
  have h2 : p.2 ∈ keysOf (atom_type_params s) :=
    (pySortedStrs_perm _).mem_iff.mp hmem.2
  exact ⟨(alookup_isSome_iff _ _).mpr h1, (alookup_isSome_iff _ _).mpr h2⟩

theorem lj_cross_step_lorentz {K : Type} [Field K] (ctx : FloatCtx K)
    (s : Structure K) (refD refE : K) {p : String × String}
    (hp : p ∈ ljCrossPairs s) :
    lj_cross_step ctx "lorentz" (atom_type_params s) refD refE p
      = ⟨[lorentz_cross_call ctx (atom_type_params s) refD refE p], none⟩ := by
  obtain ⟨h1, h2⟩ := mem_ljCrossPairs_isSome s hp
  obtain ⟨t1, ht1⟩ := Option.isSome_iff_exists.mp h1
  obtain ⟨t2, ht2⟩ := Option.isSome_iff_exists.mp h2
  unfold lj_cross_step lorentz_cross_call
  rw [ht1, ht2]
  have hl : pyLower "lorentz" = "lorentz" := by decide
  cases hnb : alookup t1.nbfix p.2 with
  | none => simp [hnb, hl]
  | some nb => simp [hnb]

theorem foldl_seqOut_singletons {K α : Type} (f : α → EngineCall K) (l : List α)
    (acc : Outcome K) (h : acc.err = none) :
    (l.map (fun a => (⟨[f a], none⟩ : Outcome K))).foldl seqOut acc
      = ⟨acc.calls ++ l.map f, none⟩ := by
  induction l generalizing acc with
  | nil =>
    cases acc with
    | mk calls err =>
      simp only [List.map_nil, List.foldl_nil, List.append_nil]
      rw [show err = none from h]
  | cons a l ih =>
    simp only [List.map_cons, List.foldl_cons]
    rw [show seqOut acc ⟨[f a], none⟩ = ⟨acc.calls ++ [f a], none⟩ by
      unfold seqOut; rw [h]]
    rw [ih _ rfl]
    simp

/-- Under the hard-coded `lorentz` mixing rule the LJ initialiser never
raises: its trace is the self loop followed by one cross call per
generated pair. -/
theorem init_hoomd_lj_lorentz {K : Type} [Field K] (ctx : FloatCtx K)
    (s : Structure K) (refD refE : K) :
    init_hoomd_lj ctx s "lorentz" refD refE
      = ⟨lj_self_calls (atom_type_params s) refD refE
          ++ lorentz_cross_calls ctx s refD refE, none⟩ := by
  unfold init_hoomd_lj runAll
  rw [List.map_congr_left (fun p hp => lj_cross_step_lorentz ctx s refD refE hp)]
  rw [foldl_seqOut_singletons _ _ _ rfl]
  unfold lorentz_cross_calls
  rfl

/-! ## Error classification lemmas -/

/-- An error slot that cannot hold any `ValueError`. -/
def noVE (e : Option PyErr) : Prop := ∀ m, e ≠ some (.valueError m)

theorem noVE_none : noVE none := fun _ h => Option.noConfusion h

theorem noVE_indexError : noVE (some .indexError) :=
  fun _ h => PyErr.noConfusion (Option.some.inj h)

theorem noVE_attributeError (n : String) : noVE (some (.attributeError n)) :=
  fun _ h => PyErr.noConfusion (Option.some.inj h)

theorem seqOut_err {K : Type} (a b : Outcome K) :
    (seqOut a b).err = (match a.err with | some e => some e | none => b.err) := by
  obtain ⟨ac, ae⟩ := a
  cases ae <;> rfl

theorem noVE_seqOut {K : Type} {a b : Outcome K} (ha : noVE a.err) (hb : noVE b.err) :
    noVE (seqOut a b).err := by
  rw [seqOut_err]
  cases h : a.err with
  | some e =>
    rw [h] at ha
    exact ha
  | none => exact hb

theorem noVE_ite {K : Type} {c : Prop} [Decidable c] {a b : Outcome K}
    (ha : noVE a.err) (hb : noVE b.err) : noVE (if c then a else b).err := by
  by_cases h : c
  · rw [if_pos h]; exact ha
  · rw [if_neg h]; exact hb

theorem noVE_init_hoomd_lj_lorentz {K : Type} [Field K] (ctx : FloatCtx K)
    (s : Structure K) (refD refE : K) :
    noVE (init_hoomd_lj ctx s "lorentz" refD refE).err := by
  rw [init_hoomd_lj_lorentz]
  exact noVE_none

theorem noVE_lj_qq_step {K : Type} [Field K] (ctx : FloatCtx K) (s : Structure K)
    (refD refE : K) : noVE (lj_qq_step ctx s refD refE).err := by
  unfold lj_qq_step
  cases s.atoms with
  | nil => exact noVE_indexError
  | cons a rest =>
    exact noVE_ite noVE_none
      (noVE_seqOut (noVE_init_hoomd_lj_lorentz ctx s refD refE) noVE_none)

/-- In the validated branch (a `pmd.Structure` that is not an
`mb.Compound`), no block of `create_hoomd_simulation` can raise a
`ValueError`: the LJ initialiser always receives the literal `lorentz`
and the only other exceptions are `IndexError` and `AttributeError`. -/
theorem create_noVE {K : Type} [Field K] (ctx : FloatCtx K) (inp : PyInput K)
    (refD refM refE : K) (mr : String) (r_cut : K)
    (h1 : inp.isCompound = false) (h2 : inp.isStructure = true) :
    noVE (create_hoomd_simulation ctx inp refD refM refE mr r_cut).err := by
  unfold create_hoomd_simulation
  rw [if_neg (by rw [h1]; exact Bool.false_ne_true)]
  rw [if_neg (by rw [h2]; exact fun e => Bool.noConfusion e)]
  exact noVE_seqOut
    (noVE_seqOut
      (noVE_seqOut
        (noVE_seqOut
          (noVE_seqOut
            (noVE_seqOut noVE_none (noVE_lj_qq_step ctx inp.s refD refE))
            (noVE_ite noVE_none noVE_none))
          (noVE_ite noVE_none noVE_none))
        (noVE_ite noVE_none noVE_none))
      (noVE_ite noVE_none (noVE_attributeError "structure")))
    (noVE_ite noVE_none noVE_none)

/-! ## Distinctness of the error messages -/

theorem mixing_msg_head (m : String) : (mixing_msg m).data.head? = some 'M' := by
  cases m with
  | mk md => rfl

theorem compound_msg_ne_mixing_msg (m : String) : compound_msg ≠ mixing_msg m := by
  intro h
  have h2 : compound_msg.data.head? = (mixing_msg m).data.head? := by rw [h]
  rw [mixing_msg_head] at h2
  have h3 : compound_msg.data.head? = some 'Y' := by decide
  rw [h3] at h2
  exact absurd h2 (by decide)

theorem structure_msg_ne_mixing_msg (m : String) : structure_msg ≠ mixing_msg m := by
  intro h
  have h2 : structure_msg.data.head? = (mixing_msg m).data.head? := by rw [h]
  rw [mixing_msg_head] at h2
  have h3 : structure_msg.data.head? = some 'P' := by decide
  rw [h3] at h2
  exact absurd h2 (by decide)

/-! ## Projections of engine calls, for key statements -/

/-- The pair of type names of an LJ pair call. -/
def callPair {K : Type} : EngineCall K → String × String
  | .ljPair a1 a2 _ _ => (a1, a2)
  | _ => ("", "")

/-- The signature key of a single-key coefficient call. -/
def callName {K : Type} : EngineCall K → String
  | .lj14 n _ _ _ _ => n
  | .qq14 n _ _ => n
  | .bondHarmonic n _ _ => n
  | .angleHarmonic n _ _ => n
  | .dihedralPeriodic n _ _ _ => n
  | .dihedralOpls n _ _ _ _ => n
  | _ => ""

theorem callPair_lorentz_cross_call {K : Type} [Field K] (ctx : FloatCtx K)
    (atp : List (String × AtomType K)) (refD refE : K) (p : String × String) :
    callPair (lorentz_cross_call ctx atp refD refE p) = p := by
  unfold lorentz_cross_call
  cases h1 : alookup atp p.1 with
  | none => simp [h1, callPair]
  | some t1 =>
    cases h2 : alookup atp p.2 with
    | none => simp [h1, h2, callPair]
    | some t2 =>
      cases hnb : alookup t1.nbfix p.2 with
      | none => simp [h1, h2, hnb, callPair]
      | some nb => simp [h1, h2, hnb, callPair]

/-- Unguarded deduplication looks up to the first entity with the
signature. -/
theorem alookup_dedupFirst {α β : Type} (sig : α → String) (val : α → β)
    (xs : List α) (k : String) :
    alookup (dedupFirst sig val xs) k
      = (xs.find? (fun x => decide (sig x = k))).map val := by
  unfold dedupFirst
  rw [alookup_dedupFirstWhen]
  congr 1
  induction xs with
  | nil => rfl
  | cons x xs ih => simp [List.filter_cons, ih]

/-! ## Concrete inputs for counterexamples and witnesses -/

/-- Rational stand-ins for the irrational constants; no statement below
depends on their values. -/
def qctx : FloatCtx ℚ := ⟨355 / 113, 9 / 8⟩

/-- An atom type with sigma 1 and epsilon 4, no NBFIX. -/
def tA : AtomType ℚ := ⟨1, 4, []⟩

/-- An atom type with sigma 3 and epsilon 4, no NBFIX. -/
def tB : AtomType ℚ := ⟨3, 4, []⟩

/-- A structure with no entities at all. -/
def emptyS : Structure ℚ := ⟨[], [], [], [], [], [], [], [], [], []⟩

/-- Two atoms of distinct types A and B. -/
def sAB : Structure ℚ :=
  ⟨[⟨"A", tA⟩, ⟨"B", tB⟩], [], [], [], [], [], [], [], [], []⟩

/-- One atom of type A. -/
def sA : Structure ℚ :=
  ⟨[⟨"A", tA⟩], [], [], [], [], [], [], [], [], []⟩

/-- A structure holding one parametrised periodic dihedral A-B-B-C. -/
def sD1 : Structure ℚ :=
  ⟨[], [], [],
   [⟨⟨"A", tA⟩, ⟨"B", tA⟩, ⟨"B", tA⟩, ⟨"C", tA⟩, ⟨1, 1, 0⟩⟩],
   [], [], [], [], [⟨1, 1, 0⟩], []⟩

/-- A compound passed where a structure is expected. -/
def inpCompound : PyInput ℚ := ⟨true, false, emptyS⟩

/-- A well-typed `pmd.Structure` argument. -/
def inpGood : PyInput ℚ := ⟨false, true, sAB⟩

/-- A well-formed legacy XML file: box 10 by 20 by 30 with tilt factors
`xy = 0`, `xz = 0`, `yz = 5`, two position rows (the first `splitlines`
entry is the empty pre-newline chunk), two type rows, and a `bond`
node. -/
def cfg1 : HoomdXmlConfig ℚ :=
  ⟨⟨10, 20, 30, 0, 0, 5⟩,
   [[], [1, 2, 3], [4, 5, 6]],
   ["", "A", "B"],
   [], ["bond"]⟩

instance (a b : String) : Decidable (strLeP a b) :=
  inferInstanceAs (Decidable (strLtB b a = false))

/-- The pair list of the full LJ trace under the `lorentz` rule: every
unique type name once as a self pair from the self loop, then the
combinations-with-replacement pairs of the sorted names from the cross
loop. -/
theorem lj_callPair_eq {K : Type} [Field K] (ctx : FloatCtx K) (s : Structure K)
    (refD refE : K) :
    (init_hoomd_lj ctx s "lorentz" refD refE).calls.map callPair
      = (keysOf (atom_type_params s)).map (fun a => (a, a)) ++ ljCrossPairs s := by
  rw [init_hoomd_lj_lorentz]
  show (lj_self_calls (atom_type_params s) refD refE
      ++ lorentz_cross_calls ctx s refD refE).map callPair = _
  rw [List.map_append]
  congr 1
  · unfold lj_self_calls keysOf
    rw [List.map_map, List.map_map]
    exact List.map_congr_left (fun p _ => rfl)
  · unfold lorentz_cross_calls
    rw [List.map_map]
    have h : ∀ p ∈ ljCrossPairs s,
        (callPair ∘ lorentz_cross_call ctx (atom_type_params s) refD refE) p = id p :=
      fun p _ => callPair_lorentz_cross_call ctx (atom_type_params s) refD refE p
    rw [List.map_congr_left h, List.map_id]

/-- Claim C1: for distinct atom types without an NBFIX entry, under the
default lorentz mixing rule, the cross sigma handed to the pair table is
`(sigma1 + sigma2) / (2 * ref_distance)` as the claim states, but the
cross epsilon is `(epsilon1 * epsilon2) / ref_energy ** 2`, not the
Lorentz-Berthelot value `sqrt(epsilon1 * epsilon2) / ref_energy`: at two
types of epsilon 4 with the default references, the engine receives 16
where the claimed formula gives 4. -/
theorem claim_C1_lorentz_cross_missing_sqrt :
    (∀ (K : Type) [Field K] (t1 t2 : AtomType K) (refD : K),
      lorentz_sigma t1 t2 refD = (t1.sigma + t2.sigma) / (2 * refD))
    ∧ (∀ (K : Type) [Field K] (t1 t2 : AtomType K) (refE : K),
      lorentz_epsilon t1 t2 refE = (t1.epsilon * t2.epsilon) / refE ^ 2)
    ∧ (init_hoomd_lj qctx sAB "lorentz" 1 1).calls
        = [.ljPair "A" "A" 1 4, .ljPair "B" "B" 3 4,
           .ljPair "A" "A" 1 16, .ljPair "A" "B" 2 16, .ljPair "B" "B" 3 16]
    ∧ Real.sqrt (4 * 4) / 1 = 4
    ∧ (16 : ℝ) ≠ 4 := by
  refine ⟨fun K _ t1 t2 refD => rfl, fun K _ t1 t2 refE => rfl, ?_, ?_, by norm_num⟩
  · rw [init_hoomd_lj_lorentz]
    have h1 : atom_type_params sAB = [("A", tA), ("B", tB)] := rfl
    have h2 : ljCrossPairs sAB = [("A", "A"), ("A", "B"), ("B", "B")] := rfl
    unfold lorentz_cross_calls lj_self_calls
    rw [h1, h2]
    simp [lorentz_cross_call, alookup, tA, tB, lorentz_sigma, lorentz_epsilon]
    norm_num
  · rw [show ((4 : ℝ) * 4) = 4 ^ 2 by norm_num,
      Real.sqrt_sq (by norm_num : (0 : ℝ) ≤ 4)]
    norm_num

/-- Witness for C1 at concrete inputs. -/
theorem claim_C1_witness :
    lorentz_sigma tA tB 1 = (tA.sigma + tB.sigma) / (2 * 1)
    ∧ (16 : ℝ) ≠ 4 :=
  ⟨claim_C1_lorentz_cross_missing_sqrt.1 ℚ tA tB 1,
   claim_C1_lorentz_cross_missing_sqrt.2.2.2.2⟩

/-- Claim C2 (amended): for LJ self-interactions, 1-4 adjusts, bonds,
angles and RB torsions, the deduplication dict holds exactly one entry
per canonical signature (its keys are pairwise distinct), the entry
holds the type object of the first entity bearing that signature, and
the trace consists of exactly the per-entry coefficient calls (for 1-4
adjusts, one call per coefficient table).  The periodic-dihedral
initialiser, however, raises `AttributeError` on its first statement
(it dereferences `structure.structure`) and makes no call at all. -/
theorem claim_C2_dedup_single_call (K : Type) [Field K] (ctx : FloatCtx K)
    (s : Structure K) (refD refE r_cut : K) :
    (lj_self_calls (atom_type_params s) refD refE
        = (atom_type_params s).map
            (fun p => .ljPair p.1 p.1 (p.2.sigma / refD) (p.2.epsilon / refE)))
    ∧ (keysOf (atom_type_params s)).Nodup
    ∧ (∀ k, alookup (atom_type_params s) k
        = (s.atoms.find? (fun a => decide (a.type = k))).map (fun a => a.atom_type))
    ∧ ((init_hoomd_14_pairs s r_cut refD refE).calls
        = .resetExclusions ["1-2", "1-3", "1-4"] ::
          ((params_14 s).map (fun p =>
            [EngineCall.lj14 p.1 (p.2.sigma / refD) (p.2.epsilon / refE) 1 r_cut,
             EngineCall.qq14 p.1 p.2.chgscale r_cut])).flatten)
    ∧ (keysOf (params_14 s)).Nodup
    ∧ (∀ k, alookup (params_14 s) k
        = (s.adjusts.find?
            (fun a => decide (adjust_key a.atom1.type a.atom2.type = k))).map
          (fun a => a.type))
    ∧ ((init_hoomd_bonds s refD refE).calls
        = (bond_type_params s).map
            (fun p => .bondHarmonic p.1 (2 * p.2.k * refD ^ 2 / refE) (p.2.req / refD)))
    ∧ (keysOf (bond_type_params s)).Nodup
    ∧ (∀ k, alookup (bond_type_params s) k
        = ((s.bonds.filter bond_keep).find?
            (fun b => decide (bond_key b.atom1.type b.atom2.type = k))).map
          (fun b => b.type))
    ∧ ((init_hoomd_angles ctx s refE).calls
        = (angle_type_params s).map
            (fun p => .angleHarmonic p.1 (deg2rad ctx p.2.theteq) (2 * p.2.k / refE)))
    ∧ (keysOf (angle_type_params s)).Nodup
    ∧ (∀ k, alookup (angle_type_params s) k
        = (s.angles.find?
            (fun a => decide (angle_key a.atom1.type a.atom2.type a.atom3.type = k))).map
          (fun a => a.type))
    ∧ ((init_hoomd_rb_torsions s refE).calls
        = (rb_torsion_type_params s).map (fun p =>
            let F := RB_to_OPLS (p.2.c0 / refE) (p.2.c1 / refE) (p.2.c2 / refE)
              (p.2.c3 / refE) (p.2.c4 / refE) (p.2.c5 / refE)
            .dihedralOpls p.1 F.1 F.2.1 F.2.2.1 F.2.2.2))
    ∧ (keysOf (rb_torsion_type_params s)).Nodup
    ∧ (∀ k, alookup (rb_torsion_type_params s) k
        = (s.rb_torsions.find? (fun d => decide
            (dihedral_key d.atom1.type d.atom2.type d.atom3.type d.atom4.type = k))).map
          (fun d => d.type))
    ∧ init_hoomd_dihedrals s = ⟨[], some (.attributeError "structure")⟩ := by
  refine ⟨rfl, keysOf_dedupFirstWhen_nodup _ _ _ _,
    fun k => alookup_dedupFirst _ _ _ k,
    rfl, keysOf_dedupFirstWhen_nodup _ _ _ _,
    fun k => alookup_dedupFirst _ _ _ k,
    rfl, keysOf_dedupFirstWhen_nodup _ _ _ _,
    fun k => alookup_dedupFirstWhen _ _ _ _ k,
    rfl, keysOf_dedupFirstWhen_nodup _ _ _ _,
    fun k => alookup_dedupFirst _ _ _ k,
    rfl, keysOf_dedupFirstWhen_nodup _ _ _ _,
    fun k => alookup_dedupFirst _ _ _ k,
    rfl⟩

/-- Counterexample to C2 as stated: a structure bearing one parametrised
periodic dihedral (a unique canonical signature) receives not one but
zero coefficient calls from the periodic-dihedral initialiser, which
aborts with `AttributeError`. -/
theorem claim_C2_counterexample :
    sD1.dihedrals.length = 1
    ∧ (init_hoomd_dihedrals sD1).calls = []
    ∧ (init_hoomd_dihedrals sD1).err = some (.attributeError "structure") :=
  ⟨rfl, rfl, rfl⟩

/-- Claim C3 (amended): the LJ cross loop emits ascending pairs, each
unordered pair of distinct unique type names exactly once, while a pair
of equal names is set twice over the whole LJ trace (once by the self
loop, once by the cross loop); the 1-4 key is the dash-join of the
plainly sorted pair (symmetric unconditionally); and the bond, angle and
dihedral keys are reversal-invariant provided the natural-sort keys of
the decisive types differ (for bonds and angles, equal end types are
also fine). -/
theorem claim_C3_canonical_keys (K : Type) [Field K] (ctx : FloatCtx K)
    (s : Structure K) (refD refE : K) :
    ((init_hoomd_lj ctx s "lorentz" refD refE).calls.map callPair
        = (keysOf (atom_type_params s)).map (fun a => (a, a)) ++ ljCrossPairs s)
    ∧ (∀ p ∈ ljCrossPairs s, strLeP p.1 p.2)
    ∧ (ljCrossPairs s).Nodup
    ∧ (∀ x y, x ∈ keysOf (atom_type_params s) → y ∈ keysOf (atom_type_params s) →
        strLeP x y → (x, y) ∈ ljCrossPairs s)
    ∧ (∀ t1 t2, adjust_key t1 t2
        = (if strLtB t2 t1 then String.intercalate "-" [t2, t1]
           else String.intercalate "-" [t1, t2])
        ∧ adjust_key t1 t2 = adjust_key t2 t1)
    ∧ (∀ t1 t2, t1 = t2 ∨ natural_sort t1 ≠ natural_sort t2 →
        bond_key t1 t2 = bond_key t2 t1)
    ∧ (∀ t1 t2 t3, t1 = t3 ∨ natural_sort t1 ≠ natural_sort t3 →
        angle_key t1 t2 t3 = angle_key t3 t2 t1)
    ∧ (∀ t1 t2 t3 t4, natural_sort t2 ≠ natural_sort t3 →
        dihedral_key t1 t2 t3 t4 = dihedral_key t4 t3 t2 t1) := by
  refine ⟨lj_callPair_eq ctx s refD refE, ?_, ?_, ?_,
    fun t1 t2 => ⟨rfl, adjust_key_swap t1 t2⟩,
    fun t1 t2 h => bond_key_swap h,
    fun t1 t2 t3 h => angle_key_swap t2 h,
    fun t1 t2 t3 t4 h => dihedral_key_rev h⟩
  · intro p hp
    exact cwr2_ascending (pySortedStrs_pairwise _) hp
  · exact cwr2_nodup (pySortedStrs_nodup (keysOf_dedupFirstWhen_nodup _ _ _ _))
  · intro x y hx hy hxy
    exact cwr2_complete (pySortedStrs_pairwise _)
      (pySortedStrs_nodup (keysOf_dedupFirstWhen_nodup _ _ _ _))
      ((pySortedStrs_perm _).mem_iff.mpr hx)
      ((pySortedStrs_perm _).mem_iff.mpr hy) hxy

/-- Witness for C3 at concrete inputs: the conditional parts applied to
explicit type names, the completeness part applied to the two-type
structure. -/
theorem claim_C3_witness :
    ("A", "B") ∈ ljCrossPairs (K := ℚ) sAB
    ∧ adjust_key "b" "a" = adjust_key "a" "b"
    ∧ bond_key "CA" "CB" = bond_key "CB" "CA"
    ∧ angle_key "CA" "X" "CB" = angle_key "CB" "X" "CA"
    ∧ dihedral_key "A" "B" "C" "D" = dihedral_key "D" "C" "B" "A" := by
  have h := claim_C3_canonical_keys ℚ qctx sAB 1 1
  exact ⟨h.2.2.2.1 "A" "B" (by decide) (by decide) (by decide),
    (h.2.2.2.2.1 "b" "a").2,
    h.2.2.2.2.2.1 "CA" "CB" (Or.inr (by decide)),
    h.2.2.2.2.2.2.1 "CA" "X" "CB" (Or.inr (by decide)),
    h.2.2.2.2.2.2.2 "A" "B" "C" "D" (by decide)⟩

/-- Counterexample to C3 as stated: the dihedral key is not invariant
under reversing the atom order when the two middle types coincide, and
an unordered pair of equal type names appears twice among the LJ
pair-coefficient calls. -/
theorem claim_C3_counterexample :
    dihedral_key "A" "B" "B" "C" ≠ dihedral_key "C" "B" "B" "A"
    ∧ (init_hoomd_lj qctx sA "lorentz" 1 1).calls.map callPair
        = [("A", "A"), ("A", "A")] := by
  constructor
  · decide
  · rw [lj_callPair_eq]
    decide

/-- Claim C4: for every well-formed legacy XML input,
`load_hoomdxml(filename)` with the default `optional_nodes=False` never
returns a trajectory: line 93 reads `optional_data`, which is only bound
inside the `if optional_nodes:` block, so the call raises `NameError`.
With `optional_nodes=True` the function does return the pair of the
trajectory (one coordinate row per data line of the position node, atom
count equal to the number of those lines, unit cell built from the box
attributes, though with `xy * lz` where the format has `yz * lz`) and
the parsed optional-node keys. -/
theorem claim_C4_load_hoomdxml_nameerror :
    (∀ cfg : HoomdXmlConfig ℚ, (load_hoomdxml cfg false).toOption = none)
    ∧ load_hoomdxml cfg1 false = .error (.nameError "optional_data")
    ∧ load_hoomdxml cfg1 true
        = .ok (⟨[[1, 2, 3], [4, 5, 6]], 2,
                [[10, 0, 0], [0, 20, 0], [0, 0, 30]], ["A", "B"]⟩, some ["bond"])
    ∧ cfg1.box.yz = 5 := by
  refine ⟨?_, ?_, ?_, rfl⟩
  · intro cfg
    unfold load_hoomdxml
    by_cases h : (cfg.position_lines.drop 1).isEmpty = true
    · rw [if_pos h]
      rfl
    · rw [if_neg h]
      rfl
  · rfl
  · simp only [load_hoomdxml, cfg1, optional_keys, per_particle_nodes,
      multi_particle_nodes]
    norm_num
    decide

/-- Claim C5: `create_hoomd_simulation` raises `ValueError` exactly when
its argument is an `mb.Compound` or not a `pmd.Structure`; in that case
the raise happens before the engine context, the snapshot, or any
coefficient call, so the trace is empty; a `pmd.Structure` argument
passes the type check, and no later block can raise a `ValueError`. -/
theorem claim_C5_typecheck_valueerror (K : Type) [Field K] (ctx : FloatCtx K)
    (inp : PyInput K) (refD refM refE : K) (mr : String) (r_cut : K) :
    ((∃ m, (create_hoomd_simulation ctx inp refD refM refE mr r_cut).err
        = some (.valueError m))
      ↔ (inp.isCompound = true ∨ inp.isStructure = false))
    ∧ ((inp.isCompound = true ∨ inp.isStructure = false) →
        (create_hoomd_simulation ctx inp refD refM refE mr r_cut).calls = []) := by
  constructor
  · constructor
    · intro hex
      obtain ⟨m, hm⟩ := hex
      by_contra hn
      push_neg at hn
      obtain ⟨hc, hs⟩ := hn
      have hc2 : inp.isCompound = false := Bool.eq_false_iff.mpr hc
      have hs2 : inp.isStructure = true := by
        cases hb : inp.isStructure
        · exact absurd hb hs
        · rfl
      exact create_noVE ctx inp refD refM refE mr r_cut hc2 hs2 m hm
    · intro h
      by_cases hc : inp.isCompound = true
      · refine ⟨compound_msg, ?_⟩
        unfold create_hoomd_simulation
        rw [if_pos hc]
      · have hs : inp.isStructure = false := by
          rcases h with h | h
          · exact absurd h hc
          · exact h
        refine ⟨structure_msg, ?_⟩
        unfold create_hoomd_simulation
        rw [if_neg hc, if_pos hs]
  · intro h
    by_cases hc : inp.isCompound = true
    · unfold create_hoomd_simulation
      rw [if_pos hc]
    · have hs : inp.isStructure = false := by
        rcases h with h | h
        · exact absurd h hc
        · exact h
      unfold create_hoomd_simulation
      rw [if_neg hc, if_pos hs]

/-- Witness for C5: a compound argument raises with an empty trace, a
structure argument never yields a `ValueError`. -/
theorem claim_C5_witness :
    (∃ m, (create_hoomd_simulation qctx inpCompound 1 1 1 "lorentz" (6 / 5)).err
        = some (.valueError m))
    ∧ (create_hoomd_simulation qctx inpCompound 1 1 1 "lorentz" (6 / 5)).calls = []
    ∧ ¬(∃ m, (create_hoomd_simulation qctx inpGood 1 1 1 "lorentz" (6 / 5)).err
        = some (.valueError m)) := by
  refine
    ⟨(claim_C5_typecheck_valueerror ℚ qctx inpCompound 1 1 1 "lorentz" (6 / 5)).1.mpr
        (Or.inl rfl),
      (claim_C5_typecheck_valueerror ℚ qctx inpCompound 1 1 1 "lorentz" (6 / 5)).2
        (Or.inl rfl), ?_⟩
  intro hex
  have h := (claim_C5_typecheck_valueerror ℚ qctx inpGood 1 1 1 "lorentz" (6 / 5)).1.mp hex
  rcases h with h | h
  · exact absurd h (by decide)
  · exact absurd h (by decide)

/-- Claim C6: for every unique angle signature, the engine receives
`t0` equal to the equilibrium angle converted from degrees to radians,
`theteq * pi / 180`, and `k` equal to `2 * k / ref_energy`, the
coefficients taken from the first angle bearing the signature. -/
theorem claim_C6_angle_coefficients (K : Type) [Field K] (ctx : FloatCtx K)
    (s : Structure K) (refE : K) :
    ((init_hoomd_angles ctx s refE).calls
      = (angle_type_params s).map
          (fun p => .angleHarmonic p.1 (p.2.theteq * ctx.pi / 180) (2 * p.2.k / refE)))
    ∧ (keysOf (angle_type_params s)).Nodup
    ∧ (∀ k, alookup (angle_type_params s) k
        = (s.angles.find?
            (fun a => decide (angle_key a.atom1.type a.atom2.type a.atom3.type = k))).map
          (fun a => a.type)) := by
  refine ⟨?_, keysOf_dedupFirstWhen_nodup _ _ _ _, fun k => alookup_dedupFirst _ _ _ k⟩
  unfold init_hoomd_angles
  exact List.map_congr_left (fun p _ => by
    unfold deg2rad
    rw [mul_div_assoc p.2.theteq ctx.pi 180])

/-- Claim C7: the listed reduced-unit conversions hold (LJ self
interaction, harmonic bond, RB coefficients divided by the reference
energy before the basis change; all raw values pass through at the
default references), but the claim is violated by the lorentz cross
epsilon, which is divided by `ref_energy ** 2` rather than by
`ref_energy`: with `ref_energy = 2` and both epsilons 4, the engine
receives 4 where dividing the unscaled value 16 by `ref_energy` gives
8. -/
theorem claim_C7_reduced_units :
    (∀ (K : Type) [Field K] (atp : List (String × AtomType K)) (refD refE : K),
      lj_self_calls atp refD refE
        = atp.map (fun p => .ljPair p.1 p.1 (p.2.sigma / refD) (p.2.epsilon / refE)))
    ∧ (∀ (K : Type) [Field K] (s : Structure K) (refD refE : K),
      (init_hoomd_bonds s refD refE).calls
        = (bond_type_params s).map
            (fun p => .bondHarmonic p.1 (2 * p.2.k * refD ^ 2 / refE) (p.2.req / refD)))
    ∧ (∀ (K : Type) [Field K] (s : Structure K) (refE : K),
      (init_hoomd_rb_torsions s refE).calls
        = (rb_torsion_type_params s).map (fun p =>
            let F := RB_to_OPLS (p.2.c0 / refE) (p.2.c1 / refE) (p.2.c2 / refE)
              (p.2.c3 / refE) (p.2.c4 / refE) (p.2.c5 / refE)
            .dihedralOpls p.1 F.1 F.2.1 F.2.2.1 F.2.2.2))
    ∧ (∀ (K : Type) [Field K] (atp : List (String × AtomType K)),
      lj_self_calls atp 1 1
        = atp.map (fun p => .ljPair p.1 p.1 p.2.sigma p.2.epsilon))
    ∧ (∀ (K : Type) [Field K] (s : Structure K),
      (init_hoomd_bonds s 1 1).calls
        = (bond_type_params s).map (fun p => .bondHarmonic p.1 (2 * p.2.k) p.2.req))
    ∧ (∀ (K : Type) [Field K] (s : Structure K),
      (init_hoomd_rb_torsions s 1).calls
        = (rb_torsion_type_params s).map (fun p =>
            let F := RB_to_OPLS p.2.c0 p.2.c1 p.2.c2 p.2.c3 p.2.c4 p.2.c5
            .dihedralOpls p.1 F.1 F.2.1 F.2.2.1 F.2.2.2))
    ∧ lorentz_epsilon tA tA 2 = 4
    ∧ lorentz_epsilon tA tA 1 = 16
    ∧ (4 : ℚ) ≠ 16 / 2 := by
  refine ⟨fun K _ atp refD refE => rfl, fun K _ s refD refE => rfl,
    fun K _ s refE => rfl, ?_, ?_, ?_, ?_, ?_, by norm_num⟩
  · intro K _ atp
    simp [lj_self_calls]
  · intro K _ s
    simp [init_hoomd_bonds]
  · intro K _ s
    simp [init_hoomd_rb_torsions]
  · norm_num [lorentz_epsilon, tA]
  · norm_num [lorentz_epsilon, tA]

/-- Witness for C7 at concrete inputs. -/
theorem claim_C7_witness :
    lj_self_calls (K := ℚ) [("A", tA)] 1 1
      = [("A", tA)].map (fun p => .ljPair p.1 p.1 p.2.sigma p.2.epsilon)
    ∧ (4 : ℚ) ≠ 16 / 2 :=
  ⟨claim_C7_reduced_units.2.2.2.1 ℚ [("A", tA)],
   claim_C7_reduced_units.2.2.2.2.2.2.2.2⟩

/-- Claim C8: `save_hoomdxml` never writes the claimed document: its
first statement evaluates the unbound name `component`, so every call
raises `NameError` before the output file is even opened. -/
theorem claim_C8_save_hoomdxml_nameerror :
    ∀ (traj : MdTraj ℚ) (filename : String),
      (save_hoomdxml traj filename).written = none
      ∧ (save_hoomdxml traj filename).err = some (.nameError "component") :=
  fun _ _ => ⟨rfl, rfl⟩

/-- Claim C9: `create_hoomd_simulation` and every helper it calls
consume the structure read-only: the state-threaded run hands back the
input unchanged, whether the call raises or returns, while producing the
same outcome as the plain embedding. -/
theorem claim_C9_structure_read_only (K : Type) [Field K] (ctx : FloatCtx K)
    (inp : PyInput K) (refD refM refE : K) (mr : String) (r_cut : K) :
    (create_hoomd_simulationST ctx inp refD refM refE mr r_cut).2 = inp
    ∧ (create_hoomd_simulationST ctx inp refD refM refE mr r_cut).1
      = create_hoomd_simulation ctx inp refD refM refE mr r_cut := by
  rw [createST_spec]
  exact ⟨rfl, rfl⟩

/-- Claim C10: the behaviour of `create_hoomd_simulation` does not
depend on its `mixing_rule` argument (line 79 hard-codes `lorentz`), and
in particular the unsupported-mixing-rule `ValueError` of line 134 is
never raised, for any argument. -/
theorem claim_C10_mixing_rule_ignored (K : Type) [Field K] (ctx : FloatCtx K)
    (inp : PyInput K) (refD refM refE : K) (m1 m2 : String) (r_cut : K) :
    create_hoomd_simulation ctx inp refD refM refE m1 r_cut
      = create_hoomd_simulation ctx inp refD refM refE m2 r_cut
    ∧ (∀ m, (create_hoomd_simulation ctx inp refD refM refE m1 r_cut).err
        ≠ some (.valueError (mixing_msg m))) := by
  refine ⟨rfl, ?_⟩
  intro m hm
  by_cases hc : inp.isCompound = true
  · have he : (create_hoomd_simulation ctx inp refD refM refE m1 r_cut).err
        = some (.valueError compound_msg) := by
      unfold create_hoomd_simulation
      rw [if_pos hc]
    rw [he] at hm
    exact compound_msg_ne_mixing_msg m (PyErr.valueError.inj (Option.some.inj hm))
  · have hc2 : inp.isCompound = false := Bool.eq_false_iff.mpr hc
    by_cases hs : inp.isStructure = false
    · have he : (create_hoomd_simulation ctx inp refD refM refE m1 r_cut).err
          = some (.valueError structure_msg) := by
        unfold create_hoomd_simulation
        rw [if_neg hc, if_pos hs]
      rw [he] at hm
      exact structure_msg_ne_mixing_msg m (PyErr.valueError.inj (Option.some.inj hm))
    · have hs2 : inp.isStructure = true := by
        cases hb : inp.isStructure
        · exact absurd hb hs
        · rfl
      exact create_noVE ctx inp refD refM refE m1 r_cut hc2 hs2 (mixing_msg m) hm

/-- Witness for C10 at concrete inputs. -/
theorem claim_C10_witness :
    create_hoomd_simulation qctx inpGood 1 1 1 "geometric" (6 / 5)
      = create_hoomd_simulation qctx inpGood 1 1 1 "lorentz" (6 / 5)
    ∧ (create_hoomd_simulation qctx inpGood 1 1 1 "geometric" (6 / 5)).err
      ≠ some (.valueError (mixing_msg "geometric")) :=
  ⟨(claim_C10_mixing_rule_ignored ℚ qctx inpGood 1 1 1 "geometric" "lorentz" (6 / 5)).1,
   (claim_C10_mixing_rule_ignored ℚ qctx inpGood 1 1 1 "geometric" "lorentz" (6 / 5)).2
     "geometric"⟩

end Mbuild
